import Mathlib

/-!
Verification of `expand_every_cloudf.py`: a script that repeatedly walks a
directory tree and triggers materialization ("expansion") of odrive `.cloudf`
placeholder entries until a full walk finds none left.

The development shallowly embeds the script:

* `Spinner._raise_or_retry` / `Spinner.spin` and the per-entry
  `while os.path.exists(path): spinner.spin()` loop become `raise_or_retry`
  and `spin_wait`, indexed by spin counts (one tick = one `spin()` call, i.e.
  one existence check followed by one `spin_time` sleep).  The filesystem is
  abstracted by an existence trace `ex : Nat -> Bool` giving, for each tick,
  whether the entry's path still exists at that tick's check.
* the per-directory / per-walk processing in `traverse_and_open_all` becomes
  `process_entry`, `process_entries`, `process_dir`, `run_cycle`, producing an
  event trace; the outer `while cloudf_was_found` loop becomes `run_rounds`.
* `os.startfile` (the platform call that asks the OS to begin materializing a
  placeholder) is external to the repository; per the specification's
  Materializer collaborator interface it is modelled as a pure trigger event
  with no failure channel.
* Python's `re.search` on a pattern that may be malformed is modelled by
  `re_search` over `RePattern`, which carries a validity flag: searching with
  an invalid pattern raises (returns `.error`), mirroring `re.error`.
-/

namespace Cloudf

/-- Terminal state of one expansion task, together with the spin count (tick)
at which the `while os.path.exists` loop terminated.  `succeeded k` is the
normal exit of the `while` loop (the path no longer existed at the check of
tick `k`); `timedOut k` is `Spinner.TimeoutException` raised at tick `k`. -/
inductive SpinOutcome where
  | succeeded (tick : Nat)
  | timedOut (tick : Nat)
  deriving DecidableEq, Repr

/-- The tick at which the task terminated. -/
def SpinOutcome.tick : SpinOutcome → Nat
  | .succeeded k => k
  | .timedOut k => k

/-- What `Spinner._raise_or_retry` decides to do at a given spin count. -/
inductive SpinAction where
  | raiseTimeout
  | retryTrigger
  | keepSpinning
  deriving DecidableEq, Repr

/-- Embedding of `Spinner._raise_or_retry` (src/expand_every_cloudf.py:47-57).
`num_spins` is `self.num_spins`, `timeout_spins` is `self.timeout_spins`,
`retry_spins` is `self.retry_spins`, and `has_retry_fn` is
`self.retry_fn is not None`. -/
def raise_or_retry (num_spins timeout_spins retry_spins : Nat)
    (has_retry_fn : Bool) : SpinAction :=
  if num_spins ≠ 0 then
    if timeout_spins ≤ num_spins then .raiseTimeout
    else if has_retry_fn = true ∧ num_spins % retry_spins = 0 then .retryTrigger
    else .keepSpinning
  else .keepSpinning

/-- Embedding of the per-entry wait loop
`while os.path.exists(cloud_folder_full_path): spinner.spin()`
(src/expand_every_cloudf.py:145-146) driving `Spinner.spin`
(src/expand_every_cloudf.py:59-66).

At tick `k` (current `num_spins = k`) the loop checks `ex k` (does the path
still exist at this tick's check).  If not, the loop exits normally:
`succeeded k`.  Otherwise `spin()` runs `_raise_or_retry`, whose three branches
are inlined here exactly as in the source: at nonzero spin count, reaching the
timeout budget raises (`timedOut k`), else a due retry re-invokes the retry
function (recorded in the accumulator `acc`, most recent first) and spinning
continues with `num_spins` incremented.  The returned list holds the ticks at
which the retry function was invoked, in order. -/
def spin_wait (ex : Nat → Bool) (timeout_spins retry_spins : Nat)
    (has_retry_fn : Bool) (k : Nat) (acc : List Nat) : SpinOutcome × List Nat :=
  if ex k = true then
    if h1 : k ≠ 0 ∧ timeout_spins ≤ k then
      (.timedOut k, acc.reverse)
    else if h2 : k ≠ 0 ∧ has_retry_fn = true ∧ k % retry_spins = 0 then
      spin_wait ex timeout_spins retry_spins has_retry_fn (k + 1) (k :: acc)
    else
      spin_wait ex timeout_spins retry_spins has_retry_fn (k + 1) acc
  else
    (.succeeded k, acc.reverse)
termination_by timeout_spins + 1 - k
decreasing_by
  · omega
  · omega

/-- Unfolding equation for `spin_wait`. -/
theorem spin_wait_unfold (ex : Nat → Bool) (T R : Nat) (b : Bool) (k : Nat)
    (acc : List Nat) :
    spin_wait ex T R b k acc =
      if ex k = true then
        if k ≠ 0 ∧ T ≤ k then
          (.timedOut k, acc.reverse)
        else if k ≠ 0 ∧ b = true ∧ k % R = 0 then
          spin_wait ex T R b (k + 1) (k :: acc)
        else
          spin_wait ex T R b (k + 1) acc
      else
        (.succeeded k, acc.reverse) := by
  rw [spin_wait]
  simp only [dite_eq_ite]

/-- `spin_wait` agrees with dispatching on `raise_or_retry`, i.e. the loop
body really is `spin`: existence check, then `_raise_or_retry`, then another
tick. -/
theorem spin_wait_eq_raise_or_retry (ex : Nat → Bool) (T R : Nat) (b : Bool)
    (k : Nat) (acc : List Nat) :
    spin_wait ex T R b k acc =
      if ex k = true then
        match raise_or_retry k T R b with
        | .raiseTimeout => (.timedOut k, acc.reverse)
        | .retryTrigger => spin_wait ex T R b (k + 1) (k :: acc)
        | .keepSpinning => spin_wait ex T R b (k + 1) acc
      else
        (.succeeded k, acc.reverse) := by
  rw [spin_wait_unfold, raise_or_retry]
  by_cases hx : ex k = true
  · simp only [hx, if_true]
    by_cases h0 : k = 0
    · subst h0
      simp
    · by_cases hT : T ≤ k
      · simp [h0, hT]
      · by_cases hr : b = true ∧ k % R = 0
        · simp [h0, hT, hr]
        · simp [h0, hT, hr]
  · simp [hx]

/-- If the path's existence trace first reports `false` at tick `m` with
`m ≤ timeout_spins`, the wait loop started at tick `k ≤ m` exits with
`succeeded m`, having invoked the retry function exactly at the ticks in
`[k, m)` that are nonzero, and (when a retry function is present) multiples of
`retry_spins`. -/
theorem spin_wait_succ_char (ex : Nat → Bool) (T R : Nat) (b : Bool) (m : Nat)
    (hmT : m ≤ T) (hexm : ex m = false) :
    ∀ n k acc, m - k = n → k ≤ m →
      (∀ j, k ≤ j → j < m → ex j = true) →
      spin_wait ex T R b k acc =
        (.succeeded m,
          acc.reverse ++ (List.range' k (m - k)).filter
            (fun j => decide (j ≠ 0 ∧ b = true ∧ j % R = 0))) := by
  intro n
  induction n with
  | zero =>
    intro k acc hn hk _hall
    have hkm : k = m := by omega
    subst hkm
    rw [spin_wait_unfold]
    simp [hexm]
  | succ n ih =>
    intro k acc hn hk hall
    have hkm : k < m := by omega
    have hexk : ex k = true := hall k le_rfl hkm
    have hrange : List.range' k (m - k) = k :: List.range' (k + 1) (m - (k + 1)) := by
      have h1 : m - k = (m - (k + 1)) + 1 := by omega
      rw [h1, List.range'_succ]
    rw [spin_wait_unfold, if_pos hexk, if_neg (by omega : ¬(k ≠ 0 ∧ T ≤ k))]
    by_cases hr : k ≠ 0 ∧ b = true ∧ k % R = 0
    · rw [if_pos hr, ih (k + 1) (k :: acc) (by omega) (by omega)
        (fun j hj1 hj2 => hall j (by omega) hj2)]
      rw [hrange]
      simp [List.filter_cons, hr]
    · rw [if_neg hr, ih (k + 1) acc (by omega) (by omega)
        (fun j hj1 hj2 => hall j (by omega) hj2)]
      rw [hrange]
      simp [List.filter_cons, hr]

/-- If the path still exists at every tick up to and including `timeout_spins`
(with a positive timeout budget), the wait loop raises at tick exactly
`timeout_spins`, having invoked the retry function exactly at the ticks in
`[k, timeout_spins)` that are nonzero and multiples of `retry_spins`. -/
theorem spin_wait_timeout_char (ex : Nat → Bool) (T R : Nat) (b : Bool)
    (hT : 1 ≤ T) :
    ∀ n k acc, T - k = n → k ≤ T →
      (∀ j, k ≤ j → j ≤ T → ex j = true) →
      spin_wait ex T R b k acc =
        (.timedOut T,
          acc.reverse ++ (List.range' k (T - k)).filter
            (fun j => decide (j ≠ 0 ∧ b = true ∧ j % R = 0))) := by
  intro n
  induction n with
  | zero =>
    intro k acc hn hk hall
    have hkT : k = T := by omega
    rw [spin_wait_unfold, if_pos (hall k le_rfl (by omega)),
      if_pos (by omega : k ≠ 0 ∧ T ≤ k), hkT]
    simp
  | succ n ih =>
    intro k acc hn hk hall
    have hkT : k < T := by omega
    have hexk : ex k = true := hall k le_rfl (by omega)
    have hrange : List.range' k (T - k) = k :: List.range' (k + 1) (T - (k + 1)) := by
      have h1 : T - k = (T - (k + 1)) + 1 := by omega
      rw [h1, List.range'_succ]
    rw [spin_wait_unfold, if_pos hexk, if_neg (by omega : ¬(k ≠ 0 ∧ T ≤ k))]
    by_cases hr : k ≠ 0 ∧ b = true ∧ k % R = 0
    · rw [if_pos hr, ih (k + 1) (k :: acc) (by omega) (by omega)
        (fun j hj1 hj2 => hall j (by omega) hj2)]
      rw [hrange]
      simp [List.filter_cons, hr]
    · rw [if_neg hr, ih (k + 1) acc (by omega) (by omega)
        (fun j hj1 hj2 => hall j (by omega) hj2)]
      rw [hrange]
      simp [List.filter_cons, hr]

/-- Top-level success characterization: the task started at tick 0 succeeds at
the first tick `m ≤ timeout_spins` at which the path no longer exists. -/
theorem spin_wait_succeeds (ex : Nat → Bool) (T R : Nat) (b : Bool) (m : Nat)
    (hmT : m ≤ T) (hexm : ex m = false) (hall : ∀ j, j < m → ex j = true) :
    spin_wait ex T R b 0 [] =
      (.succeeded m, (List.range m).filter
        (fun j => decide (j ≠ 0 ∧ b = true ∧ j % R = 0))) := by
  have h := spin_wait_succ_char ex T R b m hmT hexm (m - 0) 0 [] rfl (Nat.zero_le m)
    (fun j _ hj => hall j hj)
  simpa [List.range_eq_range'] using h

/-- Top-level timeout characterization: if the path exists at every tick
through `timeout_spins`, the task times out at exactly `timeout_spins`. -/
theorem spin_wait_times_out (ex : Nat → Bool) (T R : Nat) (b : Bool)
    (hT : 1 ≤ T) (hall : ∀ j, j ≤ T → ex j = true) :
    spin_wait ex T R b 0 [] =
      (.timedOut T, (List.range T).filter
        (fun j => decide (j ≠ 0 ∧ b = true ∧ j % R = 0))) := by
  have h := spin_wait_timeout_char ex T R b hT (T - 0) 0 [] rfl (Nat.zero_le T)
    (fun j _ hj => hall j hj)
  simpa [List.range_eq_range'] using h

/-- Every run of the wait loop falls in exactly one of the two cases. -/
theorem spin_wait_cases (ex : Nat → Bool) (T R : Nat) (b : Bool) (hT : 1 ≤ T) :
    (∃ m, m ≤ T ∧ ex m = false ∧ (∀ j, j < m → ex j = true) ∧
        (spin_wait ex T R b 0 []).1 = .succeeded m)
    ∨ ((∀ j, j ≤ T → ex j = true) ∧
        (spin_wait ex T R b 0 []).1 = .timedOut T) := by
  by_cases h : ∃ j, j ≤ T ∧ ex j = false
  · left
    have hspec := Nat.find_spec h
    have hprev : ∀ j, j < Nat.find h → ex j = true := by
      intro j hj
      by_contra hx
      have hxf : ex j = false := by revert hx; cases ex j <;> simp
      exact Nat.find_min h hj ⟨Nat.le_trans (Nat.le_of_lt hj) hspec.1, hxf⟩
    refine ⟨Nat.find h, hspec.1, hspec.2, hprev, ?_⟩
    rw [spin_wait_succeeds ex T R b (Nat.find h) hspec.1 hspec.2 hprev]
  · right
    push_neg at h
    have hall : ∀ j, j ≤ T → ex j = true := by
      intro j hj
      have := h j hj
      revert this; cases ex j <;> simp
    refine ⟨hall, ?_⟩
    rw [spin_wait_times_out ex T R b hT hall]

/-- A materializer invocation made by one expansion task: `initial` is the
`double_click` issued right before the wait loop starts
(src/expand_every_cloudf.py:139); `retry k` is an invocation of the spinner's
`retry_fn` (the same `double_click`, src/expand_every_cloudf.py:142) at spin
count `k`. -/
inductive TriggerEvent where
  | initial
  | retry (tick : Nat)
  deriving DecidableEq, Repr

/-- Embedding of one dispatched entry's expansion
(src/expand_every_cloudf.py:139-150): `double_click` once, then the spinner
wait loop with `retry_fn` present.  Returns the terminal outcome and the full
ordered list of materializer invocations. -/
def expand_entry (ex : Nat → Bool) (T R : Nat) : SpinOutcome × List TriggerEvent :=
  let r := spin_wait ex T R true 0 []
  (r.1, .initial :: r.2.map .retry)

/-- The retry-tick filter with the `retry_fn is not None` conjunct discharged
(in `traverse_and_open_all` a retry function is always installed). -/
theorem retry_filter_true (R : Nat) (l : List Nat) :
    l.filter (fun j => decide (j ≠ 0 ∧ true = true ∧ j % R = 0)) =
      l.filter (fun j => decide (j ≠ 0 ∧ j % R = 0)) :=
  List.filter_congr (fun a _ => by rw [decide_eq_decide]; tauto)

/-- Unfolding of `expand_entry` against a known `spin_wait` run. -/
theorem expand_entry_eq (ex : Nat → Bool) (T R : Nat) (o : SpinOutcome)
    (L : List Nat) (h : spin_wait ex T R true 0 [] = (o, L)) :
    expand_entry ex T R = (o, .initial :: L.map .retry) := by
  rw [expand_entry, h]

/-- Claim C1: for every dispatched entry, the expansion task terminates in
exactly one of two states — `succeeded` iff the path is observed gone at some
existence check at a tick `m ≤ timeout_spins` (i.e. the path stopped existing
strictly before the deadline moment, since the check at tick `timeout_spins`
happens exactly when the timeout budget is reached and observes what vanished
strictly before it), and `timedOut` otherwise, raised at exactly the deadline
tick `timeout_spins`.  No third terminal outcome exists. -/
theorem c1_poller_two_terminal_states (ex : Nat → Bool) (T R : Nat) (b : Bool)
    (hT : 1 ≤ T) :
    ((∃ m, (spin_wait ex T R b 0 []).1 = .succeeded m) ∨
        (spin_wait ex T R b 0 []).1 = .timedOut T)
    ∧ (∀ m, (spin_wait ex T R b 0 []).1 = .succeeded m ↔
        (m ≤ T ∧ ex m = false ∧ ∀ j, j < m → ex j = true))
    ∧ ((spin_wait ex T R b 0 []).1 = .timedOut T ↔ (∀ j, j ≤ T → ex j = true))
    ∧ (∀ t, (spin_wait ex T R b 0 []).1 = .timedOut t → t = T) := by
  rcases spin_wait_cases ex T R b hT with
    ⟨m, hmT, hexm, hprev, heq⟩ | ⟨hall, heq⟩
  · refine ⟨.inl ⟨m, heq⟩, ?_, ?_, ?_⟩
    · intro m'
      constructor
      · intro h
        rw [heq] at h
        cases h
        exact ⟨hmT, hexm, hprev⟩
      · rintro ⟨hm'T, hexm', hprev'⟩
        have hmm : m = m' := by
          by_contra hne
          rcases Nat.lt_or_ge m m' with hlt | hge
          · exact absurd (hprev' m hlt) (by simp [hexm])
          · have : m' < m := by omega
            exact absurd (hprev m' this) (by simp [hexm'])
        rw [heq, hmm]
    · constructor
      · intro h
        rw [heq] at h
        cases h
      · intro hall
        exact absurd (hall m hmT) (by simp [hexm])
    · intro t ht
      rw [heq] at ht
      cases ht
  · refine ⟨.inr heq, ?_, ?_, ?_⟩
    · intro m
      constructor
      · intro h
        rw [heq] at h
        cases h
      · rintro ⟨hmT, hexm, _⟩
        exact absurd (hall m hmT) (by simp [hexm])
    · exact ⟨fun _ => hall, fun _ => heq⟩
    · intro t ht
      rw [heq] at ht
      cases ht
      rfl

/-- Witness for C1 at a concrete trace: the path exists at ticks 0 and 1 and
is gone from tick 2 on; with `timeout_spins = 5` the task succeeds at tick 2. -/
theorem c1_witness :
    (spin_wait (fun k => decide (k < 2)) 5 3 true 0 []).1 =
      SpinOutcome.succeeded 2 := by
  exact ((c1_poller_two_terminal_states (fun k => decide (k < 2)) 5 3 true
    (by norm_num)).2.1 2).mpr (by decide)

/-- Claim C3: if the path vanishes between the existence check at tick `k`
(at which a retry trigger fires) and the next check, the poller treats this as
success: the task terminates `succeeded` at tick `k + 1`, and the trigger at
tick `k` did occur (on a path that was about to vanish) without any error
outcome — the model's trigger has no failure channel, per the Materializer
collaborator contract that `trigger` must not raise when the path no longer
exists. -/
theorem c3_vanish_between_check_and_trigger (ex : Nat → Bool) (T R k : Nat)
    (hk0 : k ≠ 0) (hkR : k % R = 0) (hkT : k < T)
    (hall : ∀ j, j ≤ k → ex j = true) (hvan : ex (k + 1) = false) :
    (spin_wait ex T R true 0 []).1 = .succeeded (k + 1) ∧
      k ∈ (spin_wait ex T R true 0 []).2 := by
  have h := spin_wait_succeeds ex T R true (k + 1) (by omega) hvan
    (fun j hj => hall j (by omega))
  rw [h]
  refine ⟨rfl, ?_⟩
  simp only [List.mem_filter, List.mem_range, decide_eq_true_eq]
  exact ⟨by omega, hk0, by trivial, hkR⟩

/-- Witness for C3: path exists through tick 3 (where a retry fires, since
`3 % 3 = 0 < 10 = timeout_spins`) and is gone at tick 4. -/
theorem c3_witness :
    (spin_wait (fun j => decide (j ≤ 3)) 10 3 true 0 []).1 =
        SpinOutcome.succeeded 4 ∧
      3 ∈ (spin_wait (fun j => decide (j ≤ 3)) 10 3 true 0 []).2 := by
  exact c3_vanish_between_check_and_trigger (fun j => decide (j ≤ 3)) 10 3 3
    (by decide) (by decide) (by decide) (by decide) (by decide)

/-- Claim C8: for every dispatched entry the materializer is invoked exactly
once immediately when waiting begins (`initial`, before the first tick), and
thereafter re-invoked exactly at the poll ticks that are nonzero multiples of
`retry_spins`, never at tick 0, and only at ticks strictly below the tick at
which the task terminates — which itself never exceeds `timeout_spins`, so all
re-invocations happen while the elapsed budget is still short of the
timeout. -/
theorem c8_trigger_schedule (ex : Nat → Bool) (T R : Nat) (hT : 1 ≤ T) :
    (expand_entry ex T R).2 =
      .initial :: ((List.range (expand_entry ex T R).1.tick).filter
        (fun j => decide (j ≠ 0 ∧ j % R = 0))).map TriggerEvent.retry
    ∧ (expand_entry ex T R).1.tick ≤ T := by
  rcases spin_wait_cases ex T R true hT with
    ⟨m, hmT, hexm, hprev, _⟩ | ⟨hall, _⟩
  · have h := spin_wait_succeeds ex T R true m hmT hexm hprev
    rw [expand_entry_eq ex T R _ _ h]
    dsimp only [SpinOutcome.tick]
    refine ⟨?_, hmT⟩
    rw [retry_filter_true]
  · have h := spin_wait_times_out ex T R true hT hall
    rw [expand_entry_eq ex T R _ _ h]
    dsimp only [SpinOutcome.tick]
    refine ⟨?_, le_rfl⟩
    rw [retry_filter_true]

/-- Witness for C8: path exists through tick 4, gone at tick 5, with
`retry_spins = 2` and `timeout_spins = 7`: the materializer fires initially
and again exactly at ticks 2 and 4. -/
theorem c8_witness :
    (expand_entry (fun k => decide (k < 5)) 7 2).2 =
      [TriggerEvent.initial, TriggerEvent.retry 2, TriggerEvent.retry 4] := by
  have hs := spin_wait_succeeds (fun k => decide (k < 5)) 7 2 true 5
    (by norm_num) (by decide) (by decide)
  have h := (c8_trigger_schedule (fun k => decide (k < 5)) 7 2 (by norm_num)).1
  rw [h]
  simp only [expand_entry, hs]
  decide

/-- Claim C10: at spin count zero `_raise_or_retry` does nothing — it neither
raises the timeout exception nor re-invokes the materializer — and
consequently, for every positive timeout budget, a task can only reach
`timedOut` at a tick `≥ 1`, i.e. after at least one full poll interval has
elapsed. -/
theorem c10_first_tick_noop :
    (∀ T R b, raise_or_retry 0 T R b = .keepSpinning)
    ∧ (∀ (ex : Nat → Bool) T R b k, 1 ≤ T →
        (spin_wait ex T R b 0 []).1 = .timedOut k → 1 ≤ k) := by
  constructor
  · intro T R b
    rfl
  · intro ex T R b k hT heq
    rcases spin_wait_cases ex T R b hT with ⟨m, _, _, _, hs⟩ | ⟨_, hs⟩
    · rw [hs] at heq
      cases heq
    · rw [hs] at heq
      cases heq
      exact hT

/-- Witness for C10: the check routine at spin count 0 with the concrete
`traverse_and_open_all` spin parameters is a no-op, and the always-existing
path with `timeout_spins = 1` times out at tick `1 ≥ 1`. -/
theorem c10_witness :
    raise_or_retry 0 12000 600 true = SpinAction.keepSpinning ∧ (1 : Nat) ≤ 1 := by
  refine ⟨c10_first_tick_noop.1 12000 600 true, ?_⟩
  exact c10_first_tick_noop.2 (fun _ => true) 1 5 true 1 le_rfl
    (by rw [spin_wait_times_out (fun _ => true) 1 5 true le_rfl (fun j _ => rfl)])

/-! ## The tree walk, exclusion filtering and the convergence loop -/

/-- Substring containment on character lists: Python's `needle in haystack`
for strings. -/
def chars_contain (needle : List Char) : List Char → Bool
  | [] => needle.isPrefixOf []
  | c :: rest => needle.isPrefixOf (c :: rest) || chars_contain needle rest

/-- `chars_contain` decides `List.IsInfix`. -/
theorem chars_contain_iff (n h : List Char) :
    chars_contain n h = true ↔ n <:+: h := by
  induction h with
  | nil =>
    rw [chars_contain]
    simp [List.isPrefixOf_iff_prefix]
  | cons c t ih =>
    rw [chars_contain]
    simp [List.isPrefixOf_iff_prefix, ih, List.infix_cons_iff]

/-- The odrive placeholder-folder marker. -/
def cloudf_marker : String := ".cloudf"

/-- Embedding of the placeholder classifier
`".cloudf" in filename` (src/expand_every_cloudf.py:127): Python's `in` on
strings is substring containment, so a filename is classified as a cloudf
placeholder whenever `.cloudf` occurs anywhere in it. -/
def is_cloudf (filename : String) : Bool :=
  chars_contain cloudf_marker.toList filename.toList

/-- Modelled from the spec: "a placeholder is identified by a fixed naming
suffix/marker on directory entries" — the classifier the spec describes,
which tests the marker as a suffix of the name. -/
def is_cloudf_suffix (filename : String) : Bool :=
  cloudf_marker.toList.isSuffixOf filename.toList

/-- `os.sep` on the modelled platform. -/
def os_sep : String := "/"

/-- `os.path.join(root, name)` (src/expand_every_cloudf.py:131). -/
def path_join (root name : String) : String := root ++ os_sep ++ name

/-- Model of a compiled-on-use `re` pattern: `valid` is whether the pattern
text is well-formed, `sat` is the match relation against a subject string.
The pattern is fixed for the run; nothing ever mutates it. -/
structure RePattern where
  valid : Bool
  sat : String → Bool

/-- Model of `re.search(pattern, s)` (src/expand_every_cloudf.py:132): on a
malformed pattern it raises `re.error` (at its first use — patterns are not
validated anywhere at startup); otherwise it reports whether the pattern
matches somewhere in `s`. -/
def re_search (p : RePattern) (s : String) : Except String Bool :=
  if p.valid then .ok (p.sat s) else .error "re.error: invalid pattern"

/-- Observable events of one scan cycle, in order of occurrence:
`printDir root` is the walk reaching (and printing) directory `root`
(src/expand_every_cloudf.py:125); `skipExcluded` is the "NOT expanding"
branch (line 133); `taskStart` is the dispatch of an expansion task for a
full path (the `double_click` at line 139); `taskEnd` is that task's
terminal outcome (lines 147-150). -/
inductive Event where
  | printDir (root : String)
  | skipExcluded (path : String)
  | taskStart (path : String)
  | taskEnd (path : String) (outcome : SpinOutcome)
  deriving DecidableEq, Repr

/-- One `os.walk` yield: `(root, filenames)`, in top-down walk order.  The
walk of a whole tree is the list of such pairs.  `os.walk` with its default
`onerror=None` swallows traversal errors, so a nonexistent or inaccessible
root is modelled as the empty walk. -/
abbrev WalkList := List (String × List String)

/-- Execution of one expansion task for the entry at `full`, in cycle-event
form (src/expand_every_cloudf.py:136-150): set `cloudf_was_found` (the
returned flag), dispatch, wait, record the outcome.  `behav full` is the
existence trace of `full` from the moment the task starts. -/
def run_task (behav : String → Nat → Bool) (T R : Nat) (full : String) :
    List Event × Bool :=
  ([.taskStart full, .taskEnd full (spin_wait (behav full) T R true 0 []).1],
    true)

/-- Processing of one cloudf entry (src/expand_every_cloudf.py:128-150):
build the full path; if an exclusion pattern was supplied, search it in the
full path (which may raise on a malformed pattern) and skip the entry on a
match; otherwise run the expansion task. -/
def process_entry (pat : Option RePattern) (behav : String → Nat → Bool)
    (T R : Nat) (root name : String) : Except String (List Event × Bool) :=
  let full := path_join root name
  match pat with
  | none => .ok (run_task behav T R full)
  | some p =>
    match re_search p full with
    | .error e => .error e
    | .ok true => .ok ([.skipExcluded full], false)
    | .ok false => .ok (run_task behav T R full)

/-- Processing of a directory's cloudf entries in order; an exception raised
for one entry aborts the whole run, and the found-flags are or-ed. -/
def process_entries (pat : Option RePattern) (behav : String → Nat → Bool)
    (T R : Nat) (root : String) : List String → Except String (List Event × Bool)
  | [] => .ok ([], false)
  | n :: rest =>
    match process_entry pat behav T R root n with
    | .error e => .error e
    | .ok (ev1, f1) =>
      match process_entries pat behav T R root rest with
      | .error e => .error e
      | .ok (ev2, f2) => .ok (ev1 ++ ev2, f1 || f2)

/-- Processing of one `os.walk` yield (src/expand_every_cloudf.py:120-150):
print the directory, then process the filenames classified as cloudf
placeholders. -/
def process_dir (pat : Option RePattern) (behav : String → Nat → Bool)
    (T R : Nat) (root : String) (filenames : List String) :
    Except String (List Event × Bool) :=
  match process_entries pat behav T R root (filenames.filter is_cloudf) with
  | .error e => .error e
  | .ok (evs, fl) => .ok (.printDir root :: evs, fl)

/-- One full scan cycle (one iteration of the `while cloudf_was_found` body,
src/expand_every_cloudf.py:115-150): process every walk yield in order; the
flag is whether any non-excluded cloudf entry was found. -/
def run_cycle (pat : Option RePattern) (behav : String → Nat → Bool)
    (T R : Nat) : WalkList → Except String (List Event × Bool)
  | [] => .ok ([], false)
  | (root, files) :: rest =>
    match process_dir pat behav T R root files with
    | .error e => .error e
    | .ok (ev1, f1) =>
      match run_cycle pat behav T R rest with
      | .error e => .error e
      | .ok (ev2, f2) => .ok (ev1 ++ ev2, f1 || f2)

/-- Result of the whole run: `allDone r` is the `while` loop exiting after
round `r` and printing the final "All done" success banner
(src/expand_every_cloudf.py:151); `aborted r msg` is an uncaught exception in
round `r`; `running r` means the loop was still going at round `r` when the
modelling fuel ran out (the source loop has no bound on rounds). -/
inductive RunOutcome where
  | allDone (rounds : Nat)
  | aborted (round : Nat) (msg : String)
  | running (round : Nat)
  deriving DecidableEq, Repr

/-- The outer convergence loop (src/expand_every_cloudf.py:113-151).
`walks r` is the state of the filesystem tree at round `r`, abstracted as the
walk `os.walk` would yield then (the tree mutates between rounds as entries
materialize). -/
def run_rounds (walks : Nat → WalkList) (pat : Option RePattern)
    (behav : String → Nat → Bool) (T R : Nat) : Nat → Nat → RunOutcome
  | 0, r => .running r
  | fuel + 1, r =>
    match run_cycle pat behav T R (walks r) with
    | .error e => .aborted r e
    | .ok (_, found) =>
      if found then run_rounds walks pat behav T R fuel (r + 1)
      else .allDone r

/-- `Spinner.__init__` defaults (src/expand_every_cloudf.py:35):
`spin_time=0.1`, `retry_time=60`; the float arithmetic of the source is
modelled exactly over the rationals. -/
def default_spin_time : ℚ := 1 / 10

/-- `retry_time=60` default. -/
def default_retry_time : ℚ := 60

/-- The 20-minute timeout passed at src/expand_every_cloudf.py:141. -/
def traverse_timeout : ℚ := 20 * 60

/-- `self.timeout_spins = math.ceil(self.timeout / self.single_spin_time)`
(src/expand_every_cloudf.py:44). -/
def timeout_spins_of (timeout spin_time : ℚ) : Nat := Nat.ceil (timeout / spin_time)

/-- `self.retry_spins = math.ceil(self.retry_time / self.single_spin_time)`
(src/expand_every_cloudf.py:43). -/
def retry_spins_of (retry_time spin_time : ℚ) : Nat := Nat.ceil (retry_time / spin_time)

/-- The spin-count timeout budget used by `traverse_and_open_all`. -/
def traverse_timeout_spins : Nat := timeout_spins_of traverse_timeout default_spin_time

/-- The spin-count retry period used by `traverse_and_open_all`. -/
def traverse_retry_spins : Nat := retry_spins_of default_retry_time default_spin_time

/-- The whole program after argument parsing (src/expand_every_cloudf.py:109-151):
round numbering starts at 1. -/
def traverse_and_open_all (walks : Nat → WalkList) (pat : Option RePattern)
    (behav : String → Nat → Bool) (fuel : Nat) : RunOutcome :=
  run_rounds walks pat behav traverse_timeout_spins traverse_retry_spins fuel 1

/-- Parsed command-line arguments (src/expand_every_cloudf.py:84-88): the
parser declares exactly two options, `-d` (`--directory`) and
`-e` (`--exclude-pattern`). -/
structure Args where
  directory : String
  exclude_pattern : Option String
  deriving DecidableEq, Repr

/-- `args.directory.replace('"', '')` (src/expand_every_cloudf.py:93). -/
def strip_quotes (s : String) : String := s.replace "\"" ""

/-- Embedding of `parse_args` (src/expand_every_cloudf.py:82-95):
`cli_directory`/`cli_exclude` are the values supplied on the command line
(None if absent); when the directory is absent the user is prompted and the
response has double quotes stripped.  The exclusion pattern is passed through
untouched — in particular it is not compiled or validated here. -/
def parse_args (cli_directory : Option String) (cli_exclude : Option String)
    (prompt_response : String) : Args :=
  match cli_directory with
  | some d => ⟨d, cli_exclude⟩
  | none => ⟨strip_quotes prompt_response, cli_exclude⟩

/-- The dispatch set of a cycle trace: the full paths for which an expansion
task was started. -/
def dispatched (evs : List Event) : List String :=
  evs.filterMap fun e =>
    match e with
    | .taskStart p => some p
    | _ => none

/-- Checks that every task in a cycle trace is atomic: each `taskStart` is
immediately followed by the matching `taskEnd`, i.e. a task runs to
completion before anything else happens. -/
def tasks_atomic : List Event → Bool
  | [] => true
  | .taskStart p :: rest =>
    match rest with
    | .taskEnd q _ :: rest2 => p == q && tasks_atomic rest2
    | _ => false
  | _ :: rest => tasks_atomic rest

/-- Given the number `cur` of tasks currently in flight, the maximum number
of tasks simultaneously in flight at any point while the remaining trace
plays out. -/
def in_flight : List Event → Nat → Nat
  | [], cur => cur
  | .taskStart _ :: rest, cur => max (cur + 1) (in_flight rest (cur + 1))
  | .taskEnd _ _ :: rest, cur => in_flight rest (cur - 1)
  | _ :: rest, cur => in_flight rest cur

/-- Maximum task concurrency over a whole cycle trace. -/
def max_in_flight (evs : List Event) : Nat := in_flight evs 0

/-! ### Structural lemmas about cycle traces -/

/-- The concrete spin counts of `traverse_and_open_all`:
`ceil(1200 / 0.1) = 12000` ticks of timeout budget. -/
theorem traverse_timeout_spins_eq : traverse_timeout_spins = 12000 := by
  rw [traverse_timeout_spins, timeout_spins_of, traverse_timeout, default_spin_time]
  norm_num

/-- `ceil(60 / 0.1) = 600` ticks between retry triggers. -/
theorem traverse_retry_spins_eq : traverse_retry_spins = 600 := by
  rw [traverse_retry_spins, retry_spins_of, default_retry_time, default_spin_time]
  norm_num

/-- A task whose path is already gone at the first check succeeds at tick 0
with no retries. -/
theorem spin_wait_vanished (ex : Nat → Bool) (T R : Nat) (b : Bool)
    (h0 : ex 0 = false) : spin_wait ex T R b 0 [] = (.succeeded 0, []) := by
  rw [spin_wait_unfold, h0]
  simp

theorem dispatched_append (a b : List Event) :
    dispatched (a ++ b) = dispatched a ++ dispatched b := by
  simp [dispatched]

/-- What a single entry contributes, under a supplied valid pattern `f`:
the entry is dispatched iff `f` does not match its full path, and the
found-flag is set iff it was dispatched. -/
theorem process_entry_valid (f : String → Bool) (behav : String → Nat → Bool)
    (T R : Nat) (root n : String) (evs : List Event) (fl : Bool)
    (h : process_entry (some ⟨true, f⟩) behav T R root n = .ok (evs, fl)) :
    fl = !f (path_join root n) ∧
      dispatched evs =
        (if f (path_join root n) = true then [] else [path_join root n]) := by
  rw [process_entry] at h
  split at h
  case h_1 e heq =>
    exact absurd heq (by simp [re_search])
  case h_2 heq =>
    have hf : f (path_join root n) = true := by
      simpa [re_search] using heq
    simp only [Except.ok.injEq, Prod.mk.injEq] at h
    obtain ⟨hevs, hfl⟩ := h
    subst hevs; subst hfl
    simp [dispatched, hf]
  case h_3 heq =>
    have hf : f (path_join root n) = false := by
      simpa [re_search] using heq
    simp only [Except.ok.injEq, run_task, Prod.mk.injEq] at h
    obtain ⟨hevs, hfl⟩ := h
    subst hevs; subst hfl
    simp [dispatched, hf]

/-- Directory-level consequence of `process_entry_valid`: no dispatched path
matches `f`, and the found-flag is set iff some entry was dispatched. -/
theorem process_entries_valid (f : String → Bool) (behav : String → Nat → Bool)
    (T R : Nat) (root : String) :
    ∀ (ns : List String) (evs : List Event) (fl : Bool),
      process_entries (some ⟨true, f⟩) behav T R root ns = .ok (evs, fl) →
      (∀ p ∈ dispatched evs, f p = false) ∧ (fl = true ↔ dispatched evs ≠ []) := by
  intro ns
  induction ns with
  | nil =>
    intro evs fl h
    rw [process_entries] at h
    simp only [Except.ok.injEq, Prod.mk.injEq] at h
    obtain ⟨hevs, hfl⟩ := h
    subst hevs; subst hfl
    simp [dispatched]
  | cons n rest ih =>
    intro evs fl h
    rw [process_entries] at h
    split at h
    case h_1 e heq => exact absurd h (by simp)
    case h_2 ev1 f1 heq =>
      split at h
      case h_1 e heq2 => exact absurd h (by simp)
      case h_2 ev2 f2 heq2 =>
        simp only [Except.ok.injEq, Prod.mk.injEq] at h
        obtain ⟨hevs, hfl⟩ := h
        subst hevs; subst hfl
        obtain ⟨h1fl, h1d⟩ := process_entry_valid f behav T R root n ev1 f1 heq
        obtain ⟨h2d, h2fl⟩ := ih ev2 f2 heq2
        rw [dispatched_append]
        constructor
        · intro p hp
          rcases List.mem_append.mp hp with hp1 | hp2
          · by_cases hf : f (path_join root n) = true
            · rw [if_pos hf] at h1d
              rw [h1d] at hp1
              cases hp1
            · rw [if_neg hf] at h1d
              rw [h1d] at hp1
              have hpn : p = path_join root n := List.mem_singleton.mp hp1
              rw [hpn]
              revert hf; cases f (path_join root n) <;> simp
          · exact h2d p hp2
        · rw [h1fl]
          by_cases hf : f (path_join root n) = true
          · rw [if_pos hf] at h1d
            rw [h1d, hf]
            simpa using h2fl
          · rw [if_neg hf] at h1d
            rw [h1d]
            have hft : (!f (path_join root n)) = true := by
              revert hf; cases f (path_join root n) <;> simp
            rw [hft]
            simp

/-- Cycle-level consequence: over a whole walk, under a supplied valid
pattern `f`, no dispatched path matches `f` and the cycle's found-flag (the
thing that schedules another cycle) is set iff something was dispatched. -/
theorem run_cycle_valid (f : String → Bool) (behav : String → Nat → Bool)
    (T R : Nat) :
    ∀ (walk : WalkList) (evs : List Event) (fl : Bool),
      run_cycle (some ⟨true, f⟩) behav T R walk = .ok (evs, fl) →
      (∀ p ∈ dispatched evs, f p = false) ∧ (fl = true ↔ dispatched evs ≠ []) := by
  intro walk
  induction walk with
  | nil =>
    intro evs fl h
    rw [run_cycle] at h
    simp only [Except.ok.injEq, Prod.mk.injEq] at h
    obtain ⟨hevs, hfl⟩ := h
    subst hevs; subst hfl
    simp [dispatched]
  | cons d rest ih =>
    intro evs fl h
    rw [run_cycle] at h
    split at h
    case h_1 e heq => exact absurd h (by simp)
    case h_2 ev1 f1 heq =>
      split at h
      case h_1 e heq2 => exact absurd h (by simp)
      case h_2 ev2 f2 heq2 =>
        simp only [Except.ok.injEq, Prod.mk.injEq] at h
        obtain ⟨hevs, hfl⟩ := h
        subst hevs; subst hfl
        rw [process_dir] at heq
        split at heq
        case h_1 e heq3 => exact absurd heq (by simp)
        case h_2 ev0 f0 heq3 =>
          simp only [Except.ok.injEq, Prod.mk.injEq] at heq
          obtain ⟨hev1, hf1⟩ := heq
          subst hev1; subst hf1
          obtain ⟨h1d, h1fl⟩ :=
            process_entries_valid f behav T R d.1 (d.2.filter is_cloudf) ev0 f0 heq3
          obtain ⟨h2d, h2fl⟩ := ih ev2 f2 heq2
          have hdd : dispatched (Event.printDir d.1 :: ev0) = dispatched ev0 := by
            simp [dispatched]
          rw [dispatched_append, hdd]
          constructor
          · intro p hp
            rcases List.mem_append.mp hp with hp1 | hp2
            · exact h1d p hp1
            · exact h2d p hp2
          · constructor
            · intro hor
              rcases Bool.or_eq_true_iff.mp hor with h1 | h2
              · intro hc
                exact (h1fl.mp h1) (List.append_eq_nil.mp hc).1
              · intro hc
                exact (h2fl.mp h2) (List.append_eq_nil.mp hc).2
            · intro hne
              by_cases h0 : dispatched ev0 = []
              · have h2 : dispatched ev2 ≠ [] := by
                  intro hc
                  exact hne (by rw [h0, hc, List.append_nil])
                rw [h2fl.mpr h2]
                simp
              · rw [h1fl.mpr h0]
                simp

/-- One entry's trace chunk keeps the atomicity check invariant: whatever the
entry did (skip, or a complete start-end task pair), checking atomicity of
its chunk followed by a tail is checking the tail. -/
theorem process_entry_atomic (pat : Option RePattern)
    (behav : String → Nat → Bool) (T R : Nat) (root n : String)
    (evs : List Event) (fl : Bool)
    (h : process_entry pat behav T R root n = .ok (evs, fl)) :
    ∀ tail, tasks_atomic (evs ++ tail) = tasks_atomic tail := by
  intro tail
  rcases pat with _ | p
  · rw [process_entry] at h
    simp only [Except.ok.injEq, run_task, Prod.mk.injEq] at h
    obtain ⟨hevs, _⟩ := h
    subst hevs
    simp [tasks_atomic]
  · rw [process_entry] at h
    split at h
    case h_1 => exact absurd h (by simp)
    case h_2 =>
      simp only [Except.ok.injEq, Prod.mk.injEq] at h
      obtain ⟨hevs, _⟩ := h
      subst hevs
      simp [tasks_atomic]
    case h_3 =>
      simp only [Except.ok.injEq, run_task, Prod.mk.injEq] at h
      obtain ⟨hevs, _⟩ := h
      subst hevs
      simp [tasks_atomic]

/-- Atomicity invariant lifted over a directory's entries. -/
theorem process_entries_atomic (pat : Option RePattern)
    (behav : String → Nat → Bool) (T R : Nat) (root : String) :
    ∀ (ns : List String) (evs : List Event) (fl : Bool),
      process_entries pat behav T R root ns = .ok (evs, fl) →
      ∀ tail, tasks_atomic (evs ++ tail) = tasks_atomic tail := by
  intro ns
  induction ns with
  | nil =>
    intro evs fl h tail
    rw [process_entries] at h
    simp only [Except.ok.injEq, Prod.mk.injEq] at h
    obtain ⟨hevs, _⟩ := h
    subst hevs
    rfl
  | cons n rest ih =>
    intro evs fl h tail
    rw [process_entries] at h
    split at h
    case h_1 => exact absurd h (by simp)
    case h_2 ev1 f1 heq =>
      split at h
      case h_1 => exact absurd h (by simp)
      case h_2 ev2 f2 heq2 =>
        simp only [Except.ok.injEq, Prod.mk.injEq] at h
        obtain ⟨hevs, _⟩ := h
        subst hevs
        rw [List.append_assoc, process_entry_atomic pat behav T R root n ev1 f1 heq,
          ih ev2 f2 heq2]

/-- Atomicity invariant over a whole cycle: every expansion task recorded in
a cycle trace runs from `taskStart` to its own `taskEnd` with nothing in
between. -/
theorem run_cycle_atomic (pat : Option RePattern)
    (behav : String → Nat → Bool) (T R : Nat) :
    ∀ (walk : WalkList) (evs : List Event) (fl : Bool),
      run_cycle pat behav T R walk = .ok (evs, fl) →
      tasks_atomic evs = true := by
  have key : ∀ (walk : WalkList) (evs : List Event) (fl : Bool),
      run_cycle pat behav T R walk = .ok (evs, fl) →
      ∀ tail, tasks_atomic (evs ++ tail) = tasks_atomic tail := by
    intro walk
    induction walk with
    | nil =>
      intro evs fl h tail
      rw [run_cycle] at h
      simp only [Except.ok.injEq, Prod.mk.injEq] at h
      obtain ⟨hevs, _⟩ := h
      subst hevs
      rfl
    | cons d rest ih =>
      intro evs fl h tail
      rw [run_cycle] at h
      split at h
      case h_1 => exact absurd h (by simp)
      case h_2 ev1 f1 heq =>
        split at h
        case h_1 => exact absurd h (by simp)
        case h_2 ev2 f2 heq2 =>
          simp only [Except.ok.injEq, Prod.mk.injEq] at h
          obtain ⟨hevs, _⟩ := h
          subst hevs
          rw [process_dir] at heq
          split at heq
          case h_1 => exact absurd heq (by simp)
          case h_2 ev0 f0 heq3 =>
            simp only [Except.ok.injEq, Prod.mk.injEq] at heq
            obtain ⟨hev1, _⟩ := heq
            subst hev1
            rw [List.append_assoc, List.cons_append]
            have hpd : tasks_atomic (Event.printDir d.1 :: (ev0 ++ (ev2 ++ tail))) =
                tasks_atomic (ev0 ++ (ev2 ++ tail)) := rfl
            rw [hpd, process_entries_atomic pat behav T R d.1 (d.2.filter is_cloudf)
              ev0 f0 heq3, ih ev2 f2 heq2]
  intro walk evs fl h
  have := key walk evs fl h []
  rw [List.append_nil] at this
  rw [this]
  rfl

/-- An atomic trace never has more than one task in flight. -/
theorem in_flight_le_one :
    ∀ evs : List Event, tasks_atomic evs = true → in_flight evs 0 ≤ 1
  | [], _ => by simp [in_flight]
  | .printDir r :: rest, h => by
    have h2 : tasks_atomic rest = true := h
    simpa [in_flight] using in_flight_le_one rest h2
  | .skipExcluded p :: rest, h => by
    have h2 : tasks_atomic rest = true := h
    simpa [in_flight] using in_flight_le_one rest h2
  | .taskEnd p o :: rest, h => by
    have h2 : tasks_atomic rest = true := h
    simpa [in_flight] using in_flight_le_one rest h2
  | .taskStart p :: [], h => by simp [tasks_atomic] at h
  | .taskStart p :: .printDir r :: rest, h => by simp [tasks_atomic] at h
  | .taskStart p :: .skipExcluded q :: rest, h => by simp [tasks_atomic] at h
  | .taskStart p :: .taskStart q :: rest, h => by simp [tasks_atomic] at h
  | .taskStart p :: .taskEnd q o :: rest, h => by
    have h2 : tasks_atomic rest = true := by
      simp [tasks_atomic] at h
      exact h.2
    have := in_flight_le_one rest h2
    simp [in_flight]
    omega

/-- With no exclusion pattern a directory's entry list never raises, and
contributes one atomic task per name, in order, with the flag recording
whether there was any. -/
theorem process_entries_none (behav : String → Nat → Bool) (T R : Nat)
    (root : String) :
    ∀ ns : List String,
      process_entries none behav T R root ns =
        .ok (ns.flatMap (fun n =>
            [Event.taskStart (path_join root n),
             Event.taskEnd (path_join root n)
               (spin_wait (behav (path_join root n)) T R true 0 []).1]),
          !ns.isEmpty) := by
  intro ns
  induction ns with
  | nil => rfl
  | cons n rest ih =>
    rw [process_entries, ih]
    rfl

/-- With no exclusion pattern a cycle never raises; its trace is the walk
order, with each directory printed and then one atomic task per
cloudf-classified filename, and its flag records whether any directory had a
cloudf-classified filename. -/
theorem run_cycle_none (behav : String → Nat → Bool) (T R : Nat) :
    ∀ walk : WalkList,
      run_cycle none behav T R walk =
        .ok (walk.flatMap (fun d => Event.printDir d.1 ::
              (d.2.filter is_cloudf).flatMap (fun n =>
                [Event.taskStart (path_join d.1 n),
                 Event.taskEnd (path_join d.1 n)
                   (spin_wait (behav (path_join d.1 n)) T R true 0 []).1])),
          walk.any (fun d => !(d.2.filter is_cloudf).isEmpty)) := by
  intro walk
  induction walk with
  | nil => rfl
  | cons d rest ih =>
    rw [run_cycle, process_dir, process_entries_none behav T R d.1 (d.2.filter is_cloudf),
      ih]
    rfl

/-- The dispatch set contributed by a run of atomic task chunks. -/
theorem dispatched_entry_chunks (root : String) (g : String → SpinOutcome) :
    ∀ ns : List String,
      dispatched (ns.flatMap (fun n =>
        [Event.taskStart (path_join root n),
         Event.taskEnd (path_join root n) (g n)])) = ns.map (path_join root) := by
  intro ns
  induction ns with
  | nil => rfl
  | cons n rest ih =>
    rw [List.flatMap_cons]
    have : dispatched ([Event.taskStart (path_join root n),
        Event.taskEnd (path_join root n) (g n)] ++
          rest.flatMap (fun n =>
            [Event.taskStart (path_join root n),
             Event.taskEnd (path_join root n) (g n)])) =
        [path_join root n] ++ dispatched (rest.flatMap (fun n =>
            [Event.taskStart (path_join root n),
             Event.taskEnd (path_join root n) (g n)])) := by
      rw [dispatched_append]
      rfl
    rw [this, ih]
    rfl

/-- Computation of the dispatch set of the patternless cycle trace. -/
theorem dispatched_cycle_chunks (behav : String → Nat → Bool) (T R : Nat) :
    ∀ walk : WalkList,
      dispatched (walk.flatMap (fun d => Event.printDir d.1 ::
          (d.2.filter is_cloudf).flatMap (fun n =>
            [Event.taskStart (path_join d.1 n),
             Event.taskEnd (path_join d.1 n)
               (spin_wait (behav (path_join d.1 n)) T R true 0 []).1]))) =
        walk.flatMap (fun d => (d.2.filter is_cloudf).map (path_join d.1)) := by
  intro walk
  induction walk with
  | nil => rfl
  | cons d rest ih =>
    rw [List.flatMap_cons, List.flatMap_cons, List.cons_append]
    have h1 : dispatched (Event.printDir d.1 ::
        ((d.2.filter is_cloudf).flatMap (fun n =>
            [Event.taskStart (path_join d.1 n),
             Event.taskEnd (path_join d.1 n)
               (spin_wait (behav (path_join d.1 n)) T R true 0 []).1]) ++
          rest.flatMap (fun d => Event.printDir d.1 ::
            (d.2.filter is_cloudf).flatMap (fun n =>
              [Event.taskStart (path_join d.1 n),
               Event.taskEnd (path_join d.1 n)
                 (spin_wait (behav (path_join d.1 n)) T R true 0 []).1])))) =
        dispatched
          ((d.2.filter is_cloudf).flatMap (fun n =>
            [Event.taskStart (path_join d.1 n),
             Event.taskEnd (path_join d.1 n)
               (spin_wait (behav (path_join d.1 n)) T R true 0 []).1]) ++
          rest.flatMap (fun d => Event.printDir d.1 ::
            (d.2.filter is_cloudf).flatMap (fun n =>
              [Event.taskStart (path_join d.1 n),
               Event.taskEnd (path_join d.1 n)
                 (spin_wait (behav (path_join d.1 n)) T R true 0 []).1]))) := rfl
    rw [h1, dispatched_append, ih, dispatched_entry_chunks d.1
      (fun n => (spin_wait (behav (path_join d.1 n)) T R true 0 []).1)]

/-- Without an exclusion pattern, the dispatch set of a cycle is exactly the
cloudf-classified filenames of the walk, joined to their directories. -/
theorem dispatched_cycle_none (behav : String → Nat → Bool) (T R : Nat)
    (walk : WalkList) (evs : List Event) (fl : Bool)
    (h : run_cycle none behav T R walk = .ok (evs, fl)) :
    dispatched evs =
      walk.flatMap (fun d => (d.2.filter is_cloudf).map (path_join d.1)) := by
  rw [run_cycle_none] at h
  simp only [Except.ok.injEq, Prod.mk.injEq] at h
  obtain ⟨hevs, _⟩ := h
  rw [← hevs]
  exact dispatched_cycle_chunks behav T R walk

/-- A malformed exclusion pattern raises `re.error` as soon as one cloudf
entry is checked against it. -/
theorem process_entry_invalid (f : String → Bool) (behav : String → Nat → Bool)
    (T R : Nat) (root n : String) :
    process_entry (some ⟨false, f⟩) behav T R root n =
      .error "re.error: invalid pattern" := rfl

/-- With a malformed pattern, a cycle over a walk with no cloudf-classified
filenames never evaluates the pattern: it completes, prints the directories,
dispatches nothing and reports no placeholder found. -/
theorem run_cycle_invalid_no_cloudf (f : String → Bool)
    (behav : String → Nat → Bool) (T R : Nat) :
    ∀ walk : WalkList, (∀ d ∈ walk, ∀ n ∈ d.2, is_cloudf n = false) →
      run_cycle (some ⟨false, f⟩) behav T R walk =
        .ok (walk.map (fun d => Event.printDir d.1), false) := by
  intro walk
  induction walk with
  | nil => intro _; rfl
  | cons d rest ih =>
    intro hno
    have hfe : d.2.filter is_cloudf = [] := by
      rw [List.filter_eq_nil_iff]
      intro a ha
      simp [hno d (List.mem_cons_self d rest) a ha]
    rw [run_cycle, process_dir, hfe]
    rw [show process_entries (some ⟨false, f⟩) behav T R d.1 [] = .ok ([], false)
      from rfl]
    rw [ih (fun d' hd' => hno d' (List.mem_cons_of_mem d hd'))]
    rfl

/-- With a malformed pattern, a cycle over a walk containing at least one
cloudf-classified filename aborts the run with `re.error` — the error
surfaces mid-scan, at the first placeholder checked, not at startup. -/
theorem run_cycle_invalid_cloudf (f : String → Bool)
    (behav : String → Nat → Bool) (T R : Nat) :
    ∀ walk : WalkList, (∃ d ∈ walk, ∃ n ∈ d.2, is_cloudf n = true) →
      run_cycle (some ⟨false, f⟩) behav T R walk =
        .error "re.error: invalid pattern" := by
  intro walk
  induction walk with
  | nil =>
    rintro ⟨d, hd, _⟩
    cases hd
  | cons d rest ih =>
    rintro ⟨d', hd', n, hn, hcl⟩
    by_cases hfe : d.2.filter is_cloudf = []
    · have hd'r : d' ∈ rest := by
        rcases List.mem_cons.mp hd' with rfl | hr
        · exfalso
          have : n ∈ d'.2.filter is_cloudf := List.mem_filter.mpr ⟨hn, hcl⟩
          rw [hfe] at this
          cases this
        · exact hr
      rw [run_cycle, process_dir, hfe]
      rw [show process_entries (some ⟨false, f⟩) behav T R d.1 [] = .ok ([], false)
        from rfl]
      rw [ih ⟨d', hd'r, n, hn, hcl⟩]
    · rcases hne : d.2.filter is_cloudf with _ | ⟨n0, ns0⟩
      · exact absurd hne hfe
      · rw [run_cycle, process_dir, hne]
        rw [show process_entries (some ⟨false, f⟩) behav T R d.1 (n0 :: ns0) =
          .error "re.error: invalid pattern" from by
            rw [process_entries, process_entry_invalid]]

/-! ## Cycle-level and run-level claims -/

/-- The trace of a concrete cycle over two directories, each holding one
cloudf placeholder that materializes before its first existence check. -/
def two_dir_trace : List Event :=
  [.printDir "r", .taskStart "r/a.cloudf",
   .taskEnd "r/a.cloudf" (.succeeded 0),
   .printDir "r/sub", .taskStart "r/sub/b.cloudf",
   .taskEnd "r/sub/b.cloudf" (.succeeded 0)]

/-- Concrete cycle evaluation used by several claims: two directories, one
placeholder each, both materializing immediately. -/
theorem cycle_trace_two_dirs :
    run_cycle none (fun _ _ => false) traverse_timeout_spins traverse_retry_spins
        [("r", ["a.cloudf"]), ("r/sub", ["b.cloudf"])] =
      .ok (two_dir_trace, true) := by
  rw [run_cycle_none]
  simp only [List.flatMap_cons, List.flatMap_nil]
  simp [spin_wait_vanished, is_cloudf, path_join, os_sep, cloudf_marker,
    chars_contain, two_dir_trace]

/-- Claim C2 is refuted on the code: when the supplied root directory does
not exist, `os.walk` (with its default `onerror=None`) silently yields
nothing, so far from failing fatally at startup, the run performs one full
scan cycle, finds nothing, and prints the final success banner.  Here the
nonexistent root is the run whose walk yields nothing at every round. -/
theorem c2_counterexample :
    traverse_and_open_all (fun _ => []) none (fun _ _ => true) 3 =
      RunOutcome.allDone 1 := rfl

/-- Claim C2 amended: if the supplied root directory does not exist or is
inaccessible, the walk yields no entries, so the run performs exactly one
cycle that dispatches nothing, and reports overall success after round 1 —
it does not fail and does not validate the root. -/
theorem c2_amended (pat : Option RePattern) (behav : String → Nat → Bool)
    (fuel : Nat) :
    run_cycle pat behav traverse_timeout_spins traverse_retry_spins [] =
        .ok ([], false) ∧
      traverse_and_open_all (fun _ => []) pat behav (fuel + 1) =
        RunOutcome.allDone 1 :=
  ⟨rfl, rfl⟩

/-- Claim C4: an entry whose full path matches the (valid) exclusion pattern
is never in the dispatch set of any cycle, and the cycle's found-flag — the
only thing that schedules another cycle — is set exactly when some
non-excluded entry was dispatched, so excluded entries alone never cause
another cycle.  Every cycle the run ever performs is `run_cycle` applied to
the walk of the tree at that round, so quantifying over all walks covers the
entire run. -/
theorem c4_excluded_never_dispatched (f : String → Bool)
    (behav : String → Nat → Bool) (T R : Nat) (walk : WalkList)
    (evs : List Event) (fl : Bool)
    (h : run_cycle (some ⟨true, f⟩) behav T R walk = .ok (evs, fl)) :
    (∀ p ∈ dispatched evs, f p = false) ∧ (fl = true ↔ dispatched evs ≠ []) :=
  run_cycle_valid f behav T R walk evs fl h

/-- Concrete cycle with a valid exclusion pattern matching `r/x.cloudf`:
the matching entry is skipped, the other entry is dispatched. -/
theorem cycle_trace_excluded_pair :
    run_cycle (some ⟨true, fun s => s == "r/x.cloudf"⟩)
        (fun _ _ => false) traverse_timeout_spins traverse_retry_spins
        [("r", ["x.cloudf", "y.cloudf"])] =
      .ok ([.printDir "r", .skipExcluded "r/x.cloudf", .taskStart "r/y.cloudf",
            .taskEnd "r/y.cloudf" (.succeeded 0)], true) := by
  simp [run_cycle, process_dir, process_entries, process_entry, re_search,
    run_task, spin_wait_vanished, is_cloudf, path_join, os_sep, cloudf_marker,
    chars_contain]

/-- Witness for C4 at the concrete excluded-plus-dispatched cycle. -/
theorem c4_witness :
    (∀ p ∈ dispatched [Event.printDir "r", Event.skipExcluded "r/x.cloudf",
        Event.taskStart "r/y.cloudf",
        Event.taskEnd "r/y.cloudf" (SpinOutcome.succeeded 0)],
      (fun s => s == "r/x.cloudf") p = false) ∧
    (true = true ↔ dispatched [Event.printDir "r",
        Event.skipExcluded "r/x.cloudf", Event.taskStart "r/y.cloudf",
        Event.taskEnd "r/y.cloudf" (SpinOutcome.succeeded 0)] ≠ []) :=
  c4_excluded_never_dispatched (fun s => s == "r/x.cloudf") (fun _ _ => false)
    traverse_timeout_spins traverse_retry_spins [("r", ["x.cloudf", "y.cloudf"])]
    _ true cycle_trace_excluded_pair

/-- Claim C5 is refuted on the code: there is no worker pool at all.  In a
cycle with two pending placeholder entries the dispatch set has two tasks,
yet at most one is ever in flight — the second starts only after the first
terminates — so on any machine with two or more processing units the claimed
default (worker count = processing units) does not hold, and `parse_args`
offers no worker-count option to override. -/
theorem c5_counterexample :
    run_cycle none (fun _ _ => false) traverse_timeout_spins traverse_retry_spins
        [("r", ["a.cloudf"]), ("r/sub", ["b.cloudf"])] =
      .ok (two_dir_trace, true) ∧
    (dispatched two_dir_trace).length = 2 ∧
    max_in_flight two_dir_trace = 1 :=
  ⟨cycle_trace_two_dirs, by decide, by decide⟩

/-- Claim C5 amended: the command-line interface accepts exactly the root
directory (prompted for, with quotes stripped, when absent) and the optional
exclusion pattern — there is no worker-count option — and the tasks of every
cycle run strictly sequentially, with at most one task in flight at any
time. -/
theorem c5_amended :
    (∀ (d : String) (e : Option String) (prompt : String),
        parse_args (some d) e prompt = ⟨d, e⟩) ∧
    (∀ (e : Option String) (prompt : String),
        parse_args none e prompt = ⟨strip_quotes prompt, e⟩) ∧
    (∀ (pat : Option RePattern) (behav : String → Nat → Bool) (T R : Nat)
        (walk : WalkList) (evs : List Event) (fl : Bool),
        run_cycle pat behav T R walk = .ok (evs, fl) →
        max_in_flight evs ≤ 1) := by
  refine ⟨fun d e p => rfl, fun e p => rfl, ?_⟩
  intro pat behav T R walk evs fl h
  exact in_flight_le_one evs (run_cycle_atomic pat behav T R walk evs fl h)

/-- Witness for C5 at the concrete two-entry cycle. -/
theorem c5_witness : max_in_flight two_dir_trace ≤ 1 :=
  c5_amended.2.2 none (fun _ _ => false) traverse_timeout_spins
    traverse_retry_spins [("r", ["a.cloudf"]), ("r/sub", ["b.cloudf"])] _ true
    cycle_trace_two_dirs

/-- Claim C6 is refuted on the code: dispatch is interleaved with the scan.
In the concrete two-directory cycle, the expansion task for the first
discovered entry starts (trace position 1) strictly before the walk reaches
the second directory (trace position 3), so a materialization task runs
while the same cycle's scan is still in progress. -/
theorem c6_counterexample :
    run_cycle none (fun _ _ => false) traverse_timeout_spins traverse_retry_spins
        [("r", ["a.cloudf"]), ("r/sub", ["b.cloudf"])] =
      .ok (two_dir_trace, true) ∧
    two_dir_trace[1]? = some (Event.taskStart "r/a.cloudf") ∧
    two_dir_trace[3]? = some (Event.printDir "r/sub") :=
  ⟨cycle_trace_two_dirs, rfl, rfl⟩

/-- Claim C6 amended: each placeholder entry is dispatched immediately when
the scan discovers it, and its task runs to completion before the scan (or
anything else in the cycle) proceeds: in every cycle trace each `taskStart`
is immediately followed by its own `taskEnd`.  Cycles themselves are still
strictly sequential — the next round's scan only starts after the current
cycle finishes. -/
theorem c6_amended (pat : Option RePattern) (behav : String → Nat → Bool)
    (T R : Nat) (walk : WalkList) (evs : List Event) (fl : Bool)
    (h : run_cycle pat behav T R walk = .ok (evs, fl)) :
    tasks_atomic evs = true :=
  run_cycle_atomic pat behav T R walk evs fl h

/-- Witness for C6 at the concrete two-entry cycle. -/
theorem c6_witness : tasks_atomic two_dir_trace = true :=
  c6_amended none (fun _ _ => false) traverse_timeout_spins traverse_retry_spins
    [("r", ["a.cloudf"]), ("r/sub", ["b.cloudf"])] _ true cycle_trace_two_dirs

/-- Claim C7 is refuted on the code: the exclusion pattern is never compiled
or validated at startup — `re.search` sees it only when a cloudf entry is
checked.  With a malformed pattern and a tree containing no placeholder
entries the run completes and reports success instead of failing fatally. -/
theorem c7_counterexample :
    traverse_and_open_all (fun _ => [("r", ["normal.txt", "data.bin"])])
        (some ⟨false, fun _ => false⟩) (fun _ _ => true) 3 =
      RunOutcome.allDone 1 := rfl

/-- Claim C7 amended: a malformed exclusion pattern is passed through
argument parsing unvalidated; it causes a fatal `re.error` abort only when
the scan encounters its first cloudf-classified entry and searches the
pattern in its path.  If no such entry is ever encountered, the pattern is
never evaluated and the run completes successfully. -/
theorem c7_amended (f : String → Bool) (behav : String → Nat → Bool)
    (T R : Nat) :
    (∀ (d : Option String) (e : Option String) (prompt : String),
        (parse_args d e prompt).exclude_pattern = e) ∧
    (∀ walk : WalkList, (∀ d ∈ walk, ∀ n ∈ d.2, is_cloudf n = false) →
        run_cycle (some ⟨false, f⟩) behav T R walk =
          .ok (walk.map (fun d => Event.printDir d.1), false)) ∧
    (∀ walk : WalkList, (∃ d ∈ walk, ∃ n ∈ d.2, is_cloudf n = true) →
        run_cycle (some ⟨false, f⟩) behav T R walk =
          .error "re.error: invalid pattern") ∧
    (∀ (walks : Nat → WalkList) (fuel : Nat),
        (∀ d ∈ walks 1, ∀ n ∈ d.2, is_cloudf n = false) →
        traverse_and_open_all walks (some ⟨false, f⟩) behav (fuel + 1) =
          RunOutcome.allDone 1) := by
  refine ⟨?_, run_cycle_invalid_no_cloudf f behav T R,
    run_cycle_invalid_cloudf f behav T R, ?_⟩
  · intro d e prompt
    cases d <;> rfl
  · intro walks fuel hno
    rw [traverse_and_open_all, run_rounds,
      run_cycle_invalid_no_cloudf f behav traverse_timeout_spins
        traverse_retry_spins (walks 1) hno]
    rfl

/-- Witness for C7: a malformed pattern over a tree that does contain a
placeholder aborts the run with `re.error` the moment the entry is checked. -/
theorem c7_witness :
    run_cycle (some ⟨false, fun _ => false⟩) (fun _ _ => false) 5 3
        [("r", ["a.cloudf"])] = .error "re.error: invalid pattern" :=
  (c7_amended (fun _ => false) (fun _ _ => false) 5 3).2.2.1
    [("r", ["a.cloudf"])] (by decide)

/-- Claim C9 is refuted on the code: classification uses substring
containment, not the suffix.  `archive.cloudf.bak` does not end with
`.cloudf` yet is classified as a placeholder and dispatched for expansion. -/
theorem c9_counterexample :
    is_cloudf "archive.cloudf.bak" = true ∧
    is_cloudf_suffix "archive.cloudf.bak" = false ∧
    run_cycle none (fun _ _ => false) traverse_timeout_spins traverse_retry_spins
        [("r", ["archive.cloudf.bak"])] =
      .ok ([.printDir "r", .taskStart "r/archive.cloudf.bak",
            .taskEnd "r/archive.cloudf.bak" (.succeeded 0)], true) := by
  refine ⟨by decide, by decide, ?_⟩
  rw [run_cycle_none]
  simp only [List.flatMap_cons, List.flatMap_nil]
  simp [spin_wait_vanished, is_cloudf, path_join, os_sep, cloudf_marker,
    chars_contain]

/-- Claim C9 amended: a filename is classified as a placeholder exactly when
`.cloudf` occurs as a substring of the name.  Every name carrying the marker
as a suffix is therefore classified, but so are names that merely contain
it; and a cycle's dispatch set (with no exclusion pattern) is exactly the
so-classified filenames joined to their directories. -/
theorem c9_amended :
    (∀ fn : String, is_cloudf_suffix fn = true → is_cloudf fn = true) ∧
    (∀ (behav : String → Nat → Bool) (T R : Nat) (walk : WalkList)
        (evs : List Event) (fl : Bool),
        run_cycle none behav T R walk = .ok (evs, fl) →
        dispatched evs =
          walk.flatMap (fun d => (d.2.filter is_cloudf).map (path_join d.1))) := by
  constructor
  · intro fn h
    have hs : cloudf_marker.toList <:+ fn.toList := by
      simpa [is_cloudf_suffix] using h
    rw [is_cloudf, chars_contain_iff]
    exact hs.isInfix
  · exact dispatched_cycle_none

/-- Witness for C9's amended dispatch characterization at a concrete cycle
with one cloudf-classified and one ordinary filename. -/
theorem c9_witness :
    dispatched [Event.printDir "r", Event.taskStart "r/a.cloudf",
      Event.taskEnd "r/a.cloudf" (SpinOutcome.succeeded 0)] = ["r/a.cloudf"] := by
  have h : run_cycle none (fun _ _ => false) 5 3
      [("r", ["a.cloudf", "readme.txt"])] =
      .ok ([Event.printDir "r", Event.taskStart "r/a.cloudf",
            Event.taskEnd "r/a.cloudf" (SpinOutcome.succeeded 0)], true) := by
    rw [run_cycle_none]
    simp only [List.flatMap_cons, List.flatMap_nil]
    simp [spin_wait_vanished, is_cloudf, path_join, os_sep, cloudf_marker,
      chars_contain, show is_cloudf "readme.txt" = false from by decide,
      show is_cloudf "a.cloudf" = true from by decide]
  have hd := c9_amended.2 (fun _ _ => false) 5 3
    [("r", ["a.cloudf", "readme.txt"])] _ true h
  rw [hd]
  decide

end Cloudf
